import Mathlib

/-!
Verification of the STOMP frame codec (`src/esm5/frame.js`).

The embedding models JS strings as lists of Unicode code points (`Text`)
and byte buffers (`Uint8Array`) as lists of bytes (`Bytes`).  All pieces
of `frame.js` that the claims touch are translated: the `Frame`
constructor, the lazy `body`/`binaryBody` getters, `serialize`,
`serializeCmdAndHeaders`, `bodyLength`, `toUnit8Array`, `fromRawFrame`,
and the header-value escape helpers.  The external raw-frame splitter
(declared out of scope by the design document) is modelled from the
wire-format description.  `Array.prototype.reverse` mutates its receiver,
so `fromRawFrame` is embedded as a state-passing function returning the
constructed frame together with the post-state of its raw-frame argument.
-/

set_option maxRecDepth 8192

namespace Stomp

/-- A JS string, as its list of Unicode code points. -/
abbrev Text := List Nat

/-- A byte buffer (`Uint8Array`), as its list of bytes. -/
abbrev Bytes := List Nat

/-- A JS plain object used as a string-keyed map: an insertion-ordered
association list (integer-like keys, which JS orders first, are not used
by any claim). -/
abbrev Headers := List (Text × Text)

/-- Code points of a Lean string literal, for readable concrete values. -/
def txt (s : String) : Text := s.data.map Char.toNat

/-- `str.replace(/a/g, r)` for a single-character pattern `a`. -/
def replaceOne (a : Nat) (r : List Nat) : List Nat → List Nat
  | [] => []
  | c :: t => (if c = a then r else [c]) ++ replaceOne a r t

/-- `str.replace(/ab/g, r)` for a two-character literal pattern `ab`:
leftmost matches, non-overlapping, replacements not rescanned. -/
def replaceTwo (a b : Nat) (r : List Nat) : List Nat → List Nat
  | [] => []
  | [c] => [c]
  | c :: d :: t =>
    if c = a ∧ d = b then r ++ replaceTwo a b r t
    else c :: replaceTwo a b r (d :: t)

/-- `Frame.hdrValueEscape`:
`str.replace(/\\/g,'\\\\').replace(/\r/g,'\\r').replace(/\n/g,'\\n').replace(/:/g,'\\c')`.
Code points: backslash 92, CR 13, LF 10, colon 58, `r` 114, `n` 110, `c` 99. -/
def hdrValueEscape (s : Text) : Text :=
  replaceOne 58 [92, 99]
    (replaceOne 10 [92, 110]
      (replaceOne 13 [92, 114]
        (replaceOne 92 [92, 92] s)))

/-- `Frame.hdrValueUnEscape`:
`str.replace(/\\r/g,'\r').replace(/\\n/g,'\n').replace(/\\c/g,':').replace(/\\\\/g,'\\')`. -/
def hdrValueUnEscape (s : Text) : Text :=
  replaceTwo 92 92 [92]
    (replaceTwo 92 99 [58]
      (replaceTwo 92 110 [10]
        (replaceTwo 92 114 [13] s)))

/-- The JS regexp `\s` class (whitespace code points). -/
def isWsChar (c : Nat) : Bool :=
  c == 9 || c == 10 || c == 11 || c == 12 || c == 13 || c == 32 ||
  c == 160 || c == 0x1680 || (0x2000 ≤ c && c ≤ 0x200A) ||
  c == 0x2028 || c == 0x2029 || c == 0x202F || c == 0x205F ||
  c == 0x3000 || c == 0xFEFF

/-- `str.replace(/^\s+|\s+$/g, '')`: strip the maximal leading and
trailing whitespace runs. -/
def trim (s : Text) : Text :=
  ((s.dropWhile isWsChar).reverse.dropWhile isWsChar).reverse

/-- UTF-8 encoding of one code point (`TextEncoder` on a scalar value). -/
def utf8EncodeChar (c : Nat) : Bytes :=
  if c < 0x80 then [c]
  else if c < 0x800 then [0xC0 + c / 0x40, 0x80 + c % 0x40]
  else if c < 0x10000 then
    [0xE0 + c / 0x1000, 0x80 + c / 0x40 % 0x40, 0x80 + c % 0x40]
  else
    [0xF0 + c / 0x40000, 0x80 + c / 0x1000 % 0x40,
     0x80 + c / 0x40 % 0x40, 0x80 + c % 0x40]

/-- UTF-8 encoding of a string (`new TextEncoder().encode(s)`). -/
def utf8Encode : Text → Bytes
  | [] => []
  | c :: t => utf8EncodeChar c ++ utf8Encode t

/-- UTF-8 decoding as a byte-stream state machine: `need` is the number
of continuation bytes still expected for the current code point and
`acc` the bits collected so far. -/
def utf8DecodeSM (need acc : Nat) : Bytes → Option Text
  | [] => if need = 0 then some [] else none
  | b :: bs =>
    if need = 0 then
      if b < 0x80 then (utf8DecodeSM 0 0 bs).map (fun t => b :: t)
      else if b < 0xC0 then none
      else if b < 0xE0 then utf8DecodeSM 1 (b - 0xC0) bs
      else if b < 0xF0 then utf8DecodeSM 2 (b - 0xE0) bs
      else if b < 0xF8 then utf8DecodeSM 3 (b - 0xF0) bs
      else none
    else
      if 0x80 ≤ b ∧ b < 0xC0 then
        if need = 1 then
          (utf8DecodeSM 0 0 bs).map (fun t => (acc * 0x40 + (b - 0x80)) :: t)
        else utf8DecodeSM (need - 1) (acc * 0x40 + (b - 0x80)) bs
      else none

/-- UTF-8 decoding (`new TextDecoder().decode`).  Like `TextDecoder`
with its default options it strips a leading byte-order mark
(`EF BB BF`); it is structure-lenient: it recovers the code points of
any well-formed encoding and returns `none` on a malformed one (the
replacement-character behaviour of `TextDecoder` on malformed input is
not needed by any claim). -/
def utf8Decode (bs : Bytes) : Option Text :=
  if bs.take 3 = [0xEF, 0xBB, 0xBF] then utf8DecodeSM 0 0 (bs.drop 3)
  else utf8DecodeSM 0 0 bs

/-- Decimal rendering, fuelled so that it reduces structurally (the
fuel is always sufficient, see `natDigits`). -/
def natDigitsCore : Nat → Nat → Text
  | 0, _ => []
  | fuel + 1, n =>
    if n < 10 then [48 + n]
    else natDigitsCore fuel (n / 10) ++ [48 + n % 10]

/-- Decimal rendering of a number, as JS `"" + n` produces. -/
def natDigits (n : Nat) : Text := natDigitsCore (n + 1) n

/-- `lines.join('\n')` (`BYTE.LF` is `'\x0A'`). -/
def joinLF : List Text → Text
  | [] => []
  | [l] => l
  | l :: ls => l ++ 10 :: joinLF ls

/-- JS object assignment `m[k] = v`: update in place when the key exists,
append otherwise. -/
def insertHdr : Headers → Text → Text → Headers
  | [], k, v => [(k, v)]
  | p :: t, k, v => if p.1 = k then (k, v) :: t else p :: insertHdr t k v

/-- Property lookup `m[k]` on a string-keyed object. -/
def lookupHdr : Headers → Text → Option Text
  | [], _ => none
  | p :: t, k => if p.1 = k then some p.2 else lookupHdr t k

/-- The header name `content-length`. -/
def clKey : Text := txt "content-length"

/-- `FrameParams`: the constructor argument of `Frame` (absent optional
members are `none`; the boolean flags are truthiness-normalised by
`|| false` so they are plain `Bool`s here). -/
structure FrameParams where
  command : Text
  headers : Option Headers
  body : Option Text
  binaryBody : Option Bytes
  escapeHeaderValues : Bool
  skipContentLengthHeader : Bool

/-- The `Frame` object state after construction. -/
structure Frame where
  command : Text
  headers : Headers
  isBinaryBody : Bool
  bodyF : Option Text
  binaryBodyF : Option Bytes
  escapeHeaderValues : Bool
  skipContentLengthHeader : Bool

/-- The `Frame` constructor.  `if (binaryBody)` is a truthiness test and
a `Uint8Array` is truthy even when empty, so any supplied buffer makes
the frame binary-bodied; `body || ''` defaults a missing body to the
empty string. -/
def Frame.make (p : FrameParams) : Frame :=
  match p.binaryBody with
  | some bb =>
    { command := p.command, headers := p.headers.getD [],
      isBinaryBody := true, bodyF := none, binaryBodyF := some bb,
      escapeHeaderValues := p.escapeHeaderValues,
      skipContentLengthHeader := p.skipContentLengthHeader }
  | none =>
    { command := p.command, headers := p.headers.getD [],
      isBinaryBody := false, bodyF := some (p.body.getD []),
      binaryBodyF := none,
      escapeHeaderValues := p.escapeHeaderValues,
      skipContentLengthHeader := p.skipContentLengthHeader }

/-- The `body` getter: a binary-bodied frame decodes its bytes as UTF-8
on first access. -/
def Frame.body (f : Frame) : Option Text :=
  if f.isBinaryBody then utf8Decode (f.binaryBodyF.getD []) else f.bodyF

/-- The `binaryBody` getter: a text-bodied frame encodes its body as
UTF-8 on first access. -/
def Frame.binaryBody (f : Frame) : Bytes :=
  if f.isBinaryBody then f.binaryBodyF.getD []
  else utf8Encode (f.bodyF.getD [])

/-- `bodyLength()`: the length of the `binaryBody` view. -/
def Frame.bodyLength (f : Frame) : Nat := f.binaryBody.length

/-- `isBodyEmpty()`. -/
def Frame.isBodyEmpty (f : Frame) : Bool := f.bodyLength == 0

/-- The list `lines` built by `serializeCmdAndHeaders`: the command,
one `key:value` line per header (values escaped when the flag is set and
the command is neither CONNECT nor CONNECTED; when
`skipContentLengthHeader` is set any `content-length` entry is deleted
first), then a derived `content-length` line when the body is binary or
non-empty-and-not-skipped. -/
def Frame.serializeLines (f : Frame) : List Text :=
  let hs := if f.skipContentLengthHeader
    then f.headers.filter (fun p => decide (¬ p.1 = clKey))
    else f.headers
  ([f.command] ++ hs.map (fun p =>
      p.1 ++ 58 ::
        (if f.escapeHeaderValues ∧ ¬ f.command = txt "CONNECT" ∧
            ¬ f.command = txt "CONNECTED"
         then hdrValueEscape p.2 else p.2)))
  ++ (if f.isBinaryBody ∨ (¬ f.isBodyEmpty ∧ ¬ f.skipContentLengthHeader)
      then [clKey ++ 58 :: natDigits f.bodyLength] else [])

/-- `serializeCmdAndHeaders()`: `lines.join(LF) + LF + LF`. -/
def Frame.serializeCmdAndHeaders (f : Frame) : Text :=
  joinLF f.serializeLines ++ [10, 10]

/-- `Frame.toUnit8Array`: UTF-8 encoded header block, then the binary
body, then a single null byte. -/
def Frame.toUnit8Array (cmdAndHeaders : Text) (binaryBody : Bytes) : Bytes :=
  utf8Encode cmdAndHeaders ++ binaryBody ++ [0]

/-- `serialize()`: a byte buffer for a binary body, a string (header
block + body + NULL character) for a text body. -/
def Frame.serialize (f : Frame) : Text ⊕ Bytes :=
  if f.isBinaryBody then
    Sum.inr (Frame.toUnit8Array f.serializeCmdAndHeaders (f.binaryBodyF.getD []))
  else
    Sum.inl (f.serializeCmdAndHeaders ++ f.bodyF.getD [] ++ [0])

/-- The structurally pre-parsed raw frame handed in by the splitter. -/
structure RawFrame where
  command : Text
  headers : List (Text × Text)
  binaryBody : Bytes

/-- `Frame.fromRawFrame`.  `rawFrame.headers.reverse()` mutates the
caller's array in place, so the embedding returns the constructed frame
together with the post-state of the raw-frame argument.  Header lines
are consumed in reversed order; keys and values are trimmed, and values
are unescaped when the flag is set and the command is neither CONNECT
nor CONNECTED. -/
def Frame.fromRawFrame (raw : RawFrame) (escapeHeaderValues : Bool) :
    Frame × RawFrame :=
  let rev := raw.headers.reverse
  let hdrs := rev.foldl (fun m p =>
    insertHdr m (trim p.1)
      (if escapeHeaderValues ∧ ¬ raw.command = txt "CONNECT" ∧
          ¬ raw.command = txt "CONNECTED"
       then hdrValueUnEscape (trim p.2) else trim p.2)) []
  (Frame.make
    { command := raw.command, headers := some hdrs, body := none,
      binaryBody := some raw.binaryBody,
      escapeHeaderValues := escapeHeaderValues,
      skipContentLengthHeader := false },
   { raw with headers := rev })

/-- `Frame.marshall`: construct and immediately serialize. -/
def Frame.marshall (p : FrameParams) : Text ⊕ Bytes :=
  (Frame.make p).serialize

/-- Concatenated image of a per-character expansion (helper for reasoning
about the sequential-replace escape functions). -/
def expandWith (f : Nat → List Nat) : List Nat → List Nat
  | [] => []
  | c :: t => f c ++ expandWith f t

/-- Split a text at the first occurrence of two consecutive line feeds,
returning the parts before and after it. -/
def splitAtLFLF : Text → Option (Text × Text)
  | [] => none
  | [_] => none
  | c :: d :: t =>
    if c = 10 ∧ d = 10 then some ([], t)
    else (splitAtLFLF (d :: t)).map (fun pr => (c :: pr.1, pr.2))

/-- Split a text on every line feed (`splitLF s` always returns at least
one piece). -/
def splitLF : Text → List Text
  | [] => [[]]
  | c :: t =>
    if c = 10 then [] :: splitLF t
    else
      match splitLF t with
      | l :: ls => (c :: l) :: ls
      | [] => [[c]]

/-- Split a raw header line at its first colon into a (key, value) pair;
a line without a colon is rejected (the design document leaves it to the
splitter to choose a policy, see its §9). -/
def parseHeaderLine (l : Text) : Option (Text × Text) :=
  match l.dropWhile (fun c => !(c == 58)) with
  | 58 :: v => some (l.takeWhile (fun c => !(c == 58)), v)
  | _ => none

/-- Option-valued map over a list, failing when any element fails. -/
def mapOption (f : α → Option β) : List α → Option (List β)
  | [] => some []
  | a :: t =>
    match f a, mapOption f t with
    | some b, some bs => some (b :: bs)
    | _, _ => none

/-- Modelled from the spec: the external raw-frame splitter (design
document §2, §4.2, §6), which is not part of this repository's source.
Per the wire format it takes one serialized frame, cuts the header block
at the blank line (the first two consecutive line feeds), takes the
first header-block line as the command and splits every further line at
its first colon into a raw `(key, value)` pair, and hands the body —
everything between the blank line and the terminating null — over as
bytes (UTF-8, the encoding the transport and both body getters use). -/
def split (s : Text) : Option RawFrame :=
  match splitAtLFLF s with
  | none => none
  | some (hp, rest) =>
    match splitLF hp with
    | [] => none
    | cmd :: hls =>
      match mapOption parseHeaderLine hls with
      | none => none
      | some hdrs =>
        match rest.getLast? with
        | some 0 =>
          some { command := cmd, headers := hdrs,
                 binaryBody := utf8Encode rest.dropLast }
        | _ => none

/-- A text all of whose code points are Unicode scalar values (what a
well-formed JS string holds; `TextEncoder` is only faithful there). -/
def ValidText (s : Text) : Prop :=
  ∀ c ∈ s, c < 0x110000 ∧ ¬ (0xD800 ≤ c ∧ c < 0xE000)

instance (s : Text) : Decidable (ValidText s) := by
  unfold ValidText; infer_instance

/-- Per-character view of `hdrValueEscape` on backslash-free input. -/
def escChar (c : Nat) : List Nat :=
  if c = 13 then [92, 114]
  else if c = 10 then [92, 110]
  else if c = 58 then [92, 99]
  else [c]

/-- `escChar` after the `\r`-unescaping pass. -/
def midChar1 (c : Nat) : List Nat :=
  if c = 10 then [92, 110] else if c = 58 then [92, 99] else [c]

/-- `escChar` after the `\r`- and `\n`-unescaping passes. -/
def midChar2 (c : Nat) : List Nat :=
  if c = 58 then [92, 99] else [c]

/-- The identity expansion. -/
def singChar (c : Nat) : List Nat := [c]

end Stomp

namespace Stomp

/-! ## Lemmas about the sequential-replace escape helpers -/

theorem replaceOne_append (a : Nat) (r x y : List Nat) :
    replaceOne a r (x ++ y) = replaceOne a r x ++ replaceOne a r y := by
  induction x with
  | nil => rfl
  | cons c t ih => simp [replaceOne, ih]

theorem hdrValueEscape_append (x y : Text) :
    hdrValueEscape (x ++ y) = hdrValueEscape x ++ hdrValueEscape y := by
  simp [hdrValueEscape, replaceOne_append]

theorem replaceTwo_cons_ne (b : Nat) (r : List Nat) (c : Nat)
    (hc : ¬ c = 92) (l : List Nat) :
    replaceTwo 92 b r (c :: l) = c :: replaceTwo 92 b r l := by
  cases l with
  | nil => rfl
  | cons d t => simp [replaceTwo, hc]

theorem replaceTwo_expandWith (b : Nat) (r : List Nat)
    (f g : Nat → List Nat) (s : List Nat)
    (h : ∀ c ∈ s, (f c = [92, b] ∧ g c = r) ∨
      (∃ d, f c = [92, d] ∧ ¬ d = b ∧ ¬ d = 92 ∧ g c = [92, d]) ∨
      (∃ e, f c = [e] ∧ ¬ e = 92 ∧ g c = [e])) :
    replaceTwo 92 b r (expandWith f s) = expandWith g s := by
  induction s with
  | nil => rfl
  | cons c t ih =>
    have hc := h c (by simp)
    have ht := ih (fun x hx => h x (by simp [hx]))
    show replaceTwo 92 b r (f c ++ expandWith f t) = g c ++ expandWith g t
    rcases hc with ⟨hf, hg⟩ | ⟨d, hf, hdb, hd92, hg⟩ | ⟨e, hf, he, hg⟩
    · rw [hf, hg]
      show replaceTwo 92 b r (92 :: b :: expandWith f t) = r ++ expandWith g t
      rw [replaceTwo, if_pos ⟨rfl, rfl⟩, ht]
    · rw [hf, hg]
      show replaceTwo 92 b r (92 :: d :: expandWith f t) =
        92 :: d :: expandWith g t
      rw [replaceTwo, if_neg (by simp [hdb]), replaceTwo_cons_ne b r d hd92, ht]
    · rw [hf, hg]
      show replaceTwo 92 b r (e :: expandWith f t) = e :: expandWith g t
      rw [replaceTwo_cons_ne b r e he, ht]

theorem expandWith_singChar (s : List Nat) : expandWith singChar s = s := by
  induction s with
  | nil => rfl
  | cons c t ih => simp [expandWith, singChar, ih]

theorem hdrValueEscape_expand (s : Text) (h : ∀ c ∈ s, ¬ c = 92) :
    hdrValueEscape s = expandWith escChar s := by
  induction s with
  | nil => rfl
  | cons c t ih =>
    have hc : ¬ c = 92 := h c (by simp)
    have ht := ih (fun x hx => h x (by simp [hx]))
    have hone : hdrValueEscape (c :: t) = hdrValueEscape [c] ++ hdrValueEscape t := by
      simpa using hdrValueEscape_append [c] t
    rw [hone, ht]
    show hdrValueEscape [c] ++ _ = escChar c ++ _
    by_cases h13 : c = 13
    · subst h13; rfl
    by_cases h10 : c = 10
    · subst h10; rfl
    by_cases h58 : c = 58
    · subst h58; rfl
    simp [hdrValueEscape, replaceOne, escChar, hc, h13, h10, h58]

theorem unescape_escape (s : Text) (h : ∀ c ∈ s, ¬ c = 92) :
    hdrValueUnEscape (hdrValueEscape s) = s := by
  rw [hdrValueEscape_expand s h]
  unfold hdrValueUnEscape
  rw [replaceTwo_expandWith 114 [13] escChar midChar1 s ?h1,
      replaceTwo_expandWith 110 [10] midChar1 midChar2 s ?h2,
      replaceTwo_expandWith 99 [58] midChar2 singChar s ?h3,
      replaceTwo_expandWith 92 [92] singChar singChar s ?h4,
      expandWith_singChar]
  case h1 =>
    intro c hcs
    have hc : ¬ c = 92 := h c hcs
    by_cases h13 : c = 13
    · subst h13; exact Or.inl ⟨rfl, rfl⟩
    by_cases h10 : c = 10
    · subst h10; exact Or.inr (Or.inl ⟨110, rfl, by decide, by decide, rfl⟩)
    by_cases h58 : c = 58
    · subst h58; exact Or.inr (Or.inl ⟨99, rfl, by decide, by decide, rfl⟩)
    refine Or.inr (Or.inr ⟨c, ?_, hc, ?_⟩) <;>
      simp [escChar, midChar1, h13, h10, h58]
  case h2 =>
    intro c hcs
    have hc : ¬ c = 92 := h c hcs
    by_cases h10 : c = 10
    · subst h10; exact Or.inl ⟨rfl, rfl⟩
    by_cases h58 : c = 58
    · subst h58; exact Or.inr (Or.inl ⟨99, rfl, by decide, by decide, rfl⟩)
    refine Or.inr (Or.inr ⟨c, ?_, hc, ?_⟩) <;>
      simp [midChar1, midChar2, h10, h58]
  case h3 =>
    intro c hcs
    have hc : ¬ c = 92 := h c hcs
    by_cases h58 : c = 58
    · subst h58; exact Or.inl ⟨rfl, rfl⟩
    refine Or.inr (Or.inr ⟨c, ?_, hc, ?_⟩) <;>
      simp [midChar2, singChar, h58]
  case h4 =>
    intro c hcs
    exact Or.inr (Or.inr ⟨c, rfl, h c hcs, rfl⟩)

/-! ## Association-list lemmas for header maps -/

theorem lookupHdr_insertHdr (m : Headers) (k' v k : Text) :
    lookupHdr (insertHdr m k' v) k =
      if k' = k then some v else lookupHdr m k := by
  induction m with
  | nil => rfl
  | cons p t ih =>
    rw [insertHdr]
    by_cases hp : p.1 = k'
    · rw [if_pos hp]
      by_cases hk : k' = k
      · subst hk; simp [lookupHdr]
      · have hpk : ¬ p.1 = k := by rw [hp]; exact hk
        simp [lookupHdr, hk, hpk]
    · rw [if_neg hp]
      by_cases hk : p.1 = k
      · have hk'k : ¬ k' = k := fun he => hp (hk.trans he.symm)
        simp [lookupHdr, hk, hk'k]
      · simp [lookupHdr, hk, ih]

theorem lookupHdr_fold (l : List (Text × Text)) (kf vf : Text × Text → Text)
    (k : Text) :
    lookupHdr (l.reverse.foldl (fun m p => insertHdr m (kf p) (vf p)) []) k
      = (l.find? (fun p => decide (kf p = k))).map vf := by
  induction l with
  | nil => rfl
  | cons p t ih =>
    rw [List.reverse_cons, List.foldl_append]
    simp only [List.foldl_cons, List.foldl_nil]
    rw [lookupHdr_insertHdr]
    by_cases hk : kf p = k
    · simp [hk, List.find?_cons_of_pos]
    · rw [if_neg hk, ih, List.find?_cons_of_neg _ (by simpa using hk)]

/-- Reading the `headers` field off a constructed frame. -/
theorem Frame.make_headers (p : FrameParams) :
    (Frame.make p).headers = p.headers.getD [] := by
  cases hb : p.binaryBody <;> simp [Frame.make, hb]

/-! ## Claim theorems -/

/-- C1, corrected.  The claim as frozen fails on the code (see
`cx_C1`): the sequential-replace `hdrValueUnEscape` mis-parses escape
sequences whose leading backslash was itself produced by escaping a
literal backslash.  The amended statement: for every string containing
no backslash — in particular strings containing carriage return, line
feed, and colon — `hdrValueUnEscape (hdrValueEscape s) = s`. -/
theorem claim_C1 (s : Text) (h : ∀ c ∈ s, ¬ c = 92) :
    hdrValueUnEscape (hdrValueEscape s) = s :=
  unescape_escape s h

/-- C1 counterexample: on the two-character string `\r` (backslash then
`r`, code points 92 and 114) the round trip returns backslash followed
by a carriage return instead. -/
theorem cx_C1 :
    ¬ (hdrValueUnEscape (hdrValueEscape (txt "\\r")) = txt "\\r") ∧
    hdrValueUnEscape (hdrValueEscape (txt "\\r")) = [92, 13] := by
  constructor <;> decide

/-- C1 witness: the round trip at the concrete string `"a\r\n:b"`,
which contains a carriage return, a line feed and a colon. -/
theorem wit_C1 :
    (∀ c ∈ txt "a\r\n:b", ¬ c = 92) ∧
    hdrValueUnEscape (hdrValueEscape (txt "a\r\n:b")) = txt "a\r\n:b" :=
  ⟨by decide, claim_C1 (txt "a\r\n:b") (by decide)⟩

/-- C3, corrected.  The claim as frozen fails on the code (see
`cx_C3`): `if (binaryBody)` is a truthiness test and a `Uint8Array` is
truthy even when empty, so a supplied-but-empty `binaryBody` yields a
binary-bodied frame.  The amended statement: the constructed frame is
binary-bodied exactly when `binaryBody` is supplied (empty or not), and
when it is absent the frame is text-bodied with the body defaulting to
the empty text. -/
theorem claim_C3 (p : FrameParams) :
    (Frame.make p).isBinaryBody = p.binaryBody.isSome ∧
    (p.binaryBody = none →
      (Frame.make p).bodyF = some (p.body.getD []) ∧
      (Frame.make p).binaryBodyF = none) ∧
    (∀ bb, p.binaryBody = some bb →
      (Frame.make p).binaryBodyF = some bb ∧ (Frame.make p).bodyF = none) := by
  cases hb : p.binaryBody <;> simp [Frame.make, hb]

/-- C3 counterexample: constructing with a supplied empty `binaryBody`
(`FrameParams` fields in order: command, headers, body, binaryBody,
escapeHeaderValues, skipContentLengthHeader) produces a binary-bodied
frame, where the claim requires a text-bodied one. -/
theorem cx_C3 :
    ¬ ((Frame.make ⟨txt "SEND", none, none, some [], false, false⟩).isBinaryBody
        = false) := by
  decide

/-- C3 witness: the amended claim applied to a concrete text-bodied
construction input. -/
theorem wit_C3 :
    (Frame.make ⟨txt "SEND", none, none, none, false, false⟩).bodyF = some [] ∧
    (Frame.make ⟨txt "SEND", none, none, none, false, false⟩).isBinaryBody
      = false := by
  have h := claim_C3 ⟨txt "SEND", none, none, none, false, false⟩
  exact ⟨(h.2.1 rfl).1, by simpa using h.1⟩

/-- C5, confirmed: when the raw header-line list contains a line whose
trimmed key is `k`, the decoded mapping binds `k` to the (trimmed,
conditionally unescaped) value of the first such line in the original
order — repeated headers resolve to the first occurrence. -/
theorem claim_C5 (raw : RawFrame) (esc : Bool) (k : Text) (p : Text × Text)
    (h : raw.headers.find? (fun q => decide (trim q.1 = k)) = some p) :
    lookupHdr (Frame.fromRawFrame raw esc).1.headers k =
      some (if esc ∧ ¬ raw.command = txt "CONNECT" ∧
              ¬ raw.command = txt "CONNECTED"
            then hdrValueUnEscape (trim p.2) else trim p.2) := by
  have key := lookupHdr_fold raw.headers (fun q => trim q.1)
    (fun q => if esc ∧ ¬ raw.command = txt "CONNECT" ∧
        ¬ raw.command = txt "CONNECTED"
      then hdrValueUnEscape (trim q.2) else trim q.2) k
  rw [h] at key
  simpa [Frame.fromRawFrame, Frame.make_headers] using key

/-- C5 witness: the duplicate-header example of the spec — raw lines
`[("a","1"), ("a","2")]` decode to a mapping with `a ↦ "1"`
(`RawFrame` fields in order: command, headers, binaryBody). -/
theorem wit_C5 :
    ((RawFrame.mk (txt "SEND") [(txt "a", txt "1"), (txt "a", txt "2")]
        []).headers.find? (fun q => decide (trim q.1 = txt "a"))
      = some (txt "a", txt "1")) ∧
    lookupHdr (Frame.fromRawFrame
      (RawFrame.mk (txt "SEND") [(txt "a", txt "1"), (txt "a", txt "2")] [])
      false).1.headers (txt "a") = some (txt "1") := by
  refine ⟨by decide, ?_⟩
  have h := claim_C5
    (RawFrame.mk (txt "SEND") [(txt "a", txt "1"), (txt "a", txt "2")] [])
    false (txt "a") (txt "a", txt "1") (by decide)
  simpa using h

/-- C7, confirmed: for every text-bodied frame the `bodyLength` used for
the emitted `content-length` value is the length of the body's UTF-8
encoding; in particular the body `"héllo"` (5 characters) serializes
with `content-length:6`. -/
theorem claim_C7 :
    (∀ (cmd : Text) (hs : Option Headers) (b : Text) (esc skp : Bool),
      (Frame.make ⟨cmd, hs, some b, none, esc, skp⟩).bodyLength
        = (utf8Encode b).length) ∧
    (Frame.make ⟨txt "SEND", some [], some (txt "héllo"), none, false,
        false⟩).serializeCmdAndHeaders
      = txt "SEND\ncontent-length:6\n\n" ∧
    (txt "héllo").length = 5 := by
  refine ⟨fun cmd hs b esc skp => ?_, by decide, by decide⟩
  simp [Frame.make, Frame.bodyLength, Frame.binaryBody]

/-- Splitting a header line at a colon is unambiguous when the keys are
colon-free. -/
theorem colon_split_inj (k1 : Text) :
    ∀ (k2 v1 v2 : Text), ¬ 58 ∈ k1 → ¬ 58 ∈ k2 →
      k1 ++ 58 :: v1 = k2 ++ 58 :: v2 → k1 = k2 ∧ v1 = v2 := by
  induction k1 with
  | nil =>
    intro k2 v1 v2 _ hk2 he
    cases k2 with
    | nil => simpa using he
    | cons c t =>
      exfalso
      have : (58 : Nat) = c := by simpa using congrArg (fun l => l.headI) he
      exact hk2 (by simp [← this])
  | cons c1 t1 ih =>
    intro k2 v1 v2 hk1 hk2 he
    cases k2 with
    | nil =>
      exfalso
      have : (c1 : Nat) = 58 := by simpa using congrArg (fun l => l.headI) he
      exact hk1 (by simp [this])
    | cons c2 t2 =>
      simp only [List.cons_append, List.cons.injEq] at he
      obtain ⟨hc, ht⟩ := he
      obtain ⟨h1, h2⟩ := ih t2 v1 v2 (fun h => hk1 (by simp [h]))
        (fun h => hk2 (by simp [h])) ht
      exact ⟨by simp [hc, h1], h2⟩

/-- C2, corrected.  The claim as frozen fails on the code (see
`cx_C2`): a non-empty text body with `skipContentLengthHeader` set gets
no `content-length` line, and an empty text body never gets one.  The
amended statement: the serialized line list contains the derived
`content-length:<bodyLength>` line exactly when the frame is
binary-bodied, or its body is non-empty and `skipContentLengthHeader`
is not set (so in particular a zero-length binary body still emits
`content-length:0`). -/
theorem claim_C2 (f : Frame)
    (hcmd : ¬ 58 ∈ f.command)
    (hks : ∀ q ∈ f.headers, ¬ 58 ∈ q.1 ∧ ¬ q.1 = clKey) :
    (clKey ++ 58 :: natDigits f.bodyLength) ∈ f.serializeLines ↔
      (f.isBinaryBody = true ∨
        (¬ f.isBodyEmpty = true ∧ f.skipContentLengthHeader = false)) := by
  constructor
  · intro hmem
    rw [Frame.serializeLines] at hmem
    rcases List.mem_append.1 hmem with hmem | hmem
    · exfalso
      rcases List.mem_append.1 hmem with hmem | hmem
      · have hc : clKey ++ 58 :: natDigits f.bodyLength = f.command := by
          simpa using hmem
        exact hcmd (by rw [← hc]; exact List.mem_append_right _ (by simp))
      · obtain ⟨q, hq, he⟩ := List.mem_map.1 hmem
        have hqh : q ∈ f.headers := by
          by_cases hs : f.skipContentLengthHeader
          · simp only [hs, if_pos] at hq
            exact (List.mem_filter.1 hq).1
          · simpa [hs] using hq
        have hk58 := (hks q hqh).1
        have hclfree : ¬ (58 : Nat) ∈ clKey := by decide
        exact (hks q hqh).2 (colon_split_inj q.1 clKey _ _ hk58 hclfree he).1
    · by_contra hcond
      rw [if_neg] at hmem
      · simp at hmem
      · intro hor
        apply hcond
        rcases hor with h | h
        · exact Or.inl h
        · exact Or.inr ⟨by simpa using h.1, by simpa using h.2⟩
  · intro hcond
    rw [Frame.serializeLines]
    refine List.mem_append_right _ ?_
    rw [if_pos]
    · simp
    · rcases hcond with h | h
      · exact Or.inl h
      · exact Or.inr ⟨by simpa using h.1, by simpa using h.2⟩

/-- C2 counterexample: a frame with the non-empty text body `"x"` and
`skipContentLengthHeader` set serializes with no `content-length` line
at all — its whole line list is just the command — although the claim
requires one for every non-empty text body. -/
theorem cx_C2 :
    (Frame.make ⟨txt "SEND", none, some (txt "x"), none, false,
        true⟩).serializeLines = [txt "SEND"] ∧
    (Frame.make ⟨txt "SEND", none, some (txt "x"), none, false,
        true⟩).isBodyEmpty = false ∧
    (Frame.make ⟨txt "SEND", none, some (txt "x"), none, false,
        true⟩).skipContentLengthHeader = true := by
  refine ⟨?_, by decide, by decide⟩
  decide

/-- C2 witness: a zero-length binary body still emits
`content-length:0`. -/
theorem wit_C2 :
    (clKey ++ 58 :: natDigits (Frame.make ⟨txt "SEND", none, none, some [],
        false, false⟩).bodyLength) ∈
      (Frame.make ⟨txt "SEND", none, none, some [], false,
        false⟩).serializeLines ∧
    (Frame.make ⟨txt "SEND", none, none, some [], false,
        false⟩).serializeCmdAndHeaders = txt "SEND\ncontent-length:0\n\n" := by
  refine ⟨(claim_C2 _ (by decide) (by decide)).2 (Or.inl (by decide)), by decide⟩

/-- C6, confirmed: for a frame whose command is CONNECT or CONNECTED,
serialization is identical to that of the same frame with the escaping
flag cleared (header values go out unescaped), decoding stores the same
header mapping whether or not the flag is set (values are not
unescaped), and in particular a CONNECT header value containing a colon
is emitted with the literal colon and a value containing the `\c`
escape sequence is stored verbatim. -/
theorem claim_C6 :
    (∀ p : FrameParams,
      p.command = txt "CONNECT" ∨ p.command = txt "CONNECTED" →
      (Frame.make p).serializeLines =
        (Frame.make ⟨p.command, p.headers, p.body, p.binaryBody, false,
          p.skipContentLengthHeader⟩).serializeLines) ∧
    (∀ (raw : RawFrame) (esc : Bool),
      raw.command = txt "CONNECT" ∨ raw.command = txt "CONNECTED" →
      (Frame.fromRawFrame raw esc).1.headers =
        (Frame.fromRawFrame raw false).1.headers) ∧
    ((Frame.make ⟨txt "CONNECT", some [(txt "host", txt "a:b")], none, none,
        true, false⟩).serializeCmdAndHeaders = txt "CONNECT\nhost:a:b\n\n") ∧
    (lookupHdr (Frame.fromRawFrame
        (RawFrame.mk (txt "CONNECT") [(txt "k", txt "a\\cb")] [])
        true).1.headers (txt "k") = some (txt "a\\cb")) := by
  refine ⟨?_, ?_, by decide, by decide⟩
  · intro p hp
    rcases hb : p.binaryBody with _ | bb <;>
      rcases hp with hp | hp <;>
        simp [Frame.make, hb, Frame.serializeLines, Frame.isBodyEmpty,
          Frame.bodyLength, Frame.binaryBody, hp]
  · intro raw esc hr
    rcases hr with hr | hr <;>
      simp [Frame.fromRawFrame, Frame.make_headers, hr]

/-- C9, confirmed: with `skipContentLengthHeader` set, any
`content-length` entry is deleted from the headers before the lines are
emitted (so no caller-supplied `content-length` line is ever
transmitted, and the derived line survives only for binary bodies); with
an empty text body the serialized line list contains no `content-length`
line at all. -/
theorem claim_C9 :
    (∀ f : Frame, f.skipContentLengthHeader = true →
      f.serializeLines =
        [f.command]
        ++ (f.headers.filter (fun q => decide (¬ q.1 = clKey))).map
            (fun q => q.1 ++ 58 ::
              (if f.escapeHeaderValues ∧ ¬ f.command = txt "CONNECT" ∧
                  ¬ f.command = txt "CONNECTED"
               then hdrValueEscape q.2 else q.2))
        ++ (if f.isBinaryBody
            then [clKey ++ 58 :: natDigits f.bodyLength] else []) ∧
      ∀ q ∈ f.headers.filter (fun q => decide (¬ q.1 = clKey)),
        ¬ q.1 = clKey) ∧
    (∀ f : Frame, f.skipContentLengthHeader = true → f.isBinaryBody = false →
      f.bodyF = some [] → (∀ q ∈ f.headers, ¬ 58 ∈ q.1) → ¬ 58 ∈ f.command →
      ∀ l ∈ f.serializeLines, ∀ v : Text, ¬ l = clKey ++ 58 :: v) := by
  constructor
  · intro f hskip
    constructor
    · rw [Frame.serializeLines]
      simp only [hskip, if_pos]
      rcases hbin : f.isBinaryBody with _ | _
      · simp [Frame.isBodyEmpty, hbin, hskip]
      · simp [hbin]
    · intro q hq
      simpa using (List.mem_filter.1 hq).2
  · intro f hskip hbin hbody hks hcmd l hl v he
    subst he
    have hempty : f.isBodyEmpty = true := by
      simp [Frame.isBodyEmpty, Frame.bodyLength, Frame.binaryBody, hbin, hbody,
        utf8Encode]
    rw [Frame.serializeLines] at hl
    simp only [hskip, if_pos, hbin, hempty] at hl
    rcases List.mem_append.1 hl with hl | hl
    · rcases List.mem_append.1 hl with hl | hl
      · have hc : clKey ++ 58 :: v = f.command := by simpa using hl
        exact hcmd (by rw [← hc]; exact List.mem_append_right _ (by simp))
      · obtain ⟨q, hq, he⟩ := List.mem_map.1 hl
        have hqh : q ∈ f.headers := (List.mem_filter.1 hq).1
        have hqcl : ¬ q.1 = clKey := by simpa using (List.mem_filter.1 hq).2
        exact hqcl (colon_split_inj q.1 clKey _ _ (hks q hqh)
          (by decide) he).1
    · simp at hl

/-- C9 witness: a frame constructed with `skipContentLengthHeader=true`,
an empty text body and a caller-supplied `content-length:99` header
serializes to a header block holding only the command and the unrelated
header — the stale `content-length` is dropped and no `content-length`
line appears. -/
theorem wit_C9 :
    (Frame.make ⟨txt "SEND",
        some [(txt "content-length", txt "99"), (txt "a", txt "b")],
        none, none, false, true⟩).serializeLines
      = [txt "SEND", txt "a" ++ 58 :: txt "b"] ∧
    (∀ l ∈ (Frame.make ⟨txt "SEND",
        some [(txt "content-length", txt "99"), (txt "a", txt "b")],
        none, none, false, true⟩).serializeLines,
      ∀ v : Text, ¬ l = clKey ++ 58 :: v) := by
  constructor
  · rw [(claim_C9.1 _ rfl).1]; decide
  · intro l hl v
    exact claim_C9.2 _ rfl rfl rfl (by decide) (by decide) l hl v

/-- C6 witness: the CONNECTED command at concrete inputs on both the
serializing and the decoding side. -/
theorem wit_C6 :
    (Frame.make ⟨txt "CONNECTED", some [(txt "h", txt "x:y")], none, none,
        true, false⟩).serializeLines =
      (Frame.make ⟨txt "CONNECTED", some [(txt "h", txt "x:y")], none, none,
        false, false⟩).serializeLines ∧
    (Frame.fromRawFrame (RawFrame.mk (txt "CONNECTED") [(txt "h", txt "x")] [])
        true).1.headers =
      (Frame.fromRawFrame (RawFrame.mk (txt "CONNECTED") [(txt "h", txt "x")] [])
        false).1.headers :=
  ⟨claim_C6.1 _ (Or.inr rfl), claim_C6.2.1 _ true (Or.inr rfl)⟩

/-! ## Membership lemmas for the null-terminator claim -/

theorem replaceOne_mem (a : Nat) (r s : List Nat) (x : Nat)
    (h : x ∈ replaceOne a r s) : x ∈ r ∨ x ∈ s := by
  induction s with
  | nil => simp [replaceOne] at h
  | cons c t ih =>
    rw [replaceOne] at h
    rcases List.mem_append.1 h with h | h
    · by_cases hc : c = a
      · rw [if_pos hc] at h; exact Or.inl h
      · rw [if_neg hc] at h
        simp at h
        exact Or.inr (by simp [h])
    · rcases ih h with h | h
      · exact Or.inl h
      · exact Or.inr (by simp [h])

theorem mem_hdrValueEscape (v : Text) (x : Nat) (h : x ∈ hdrValueEscape v) :
    x ∈ ([92, 114, 110, 99] : List Nat) ∨ x ∈ v := by
  rw [hdrValueEscape] at h
  rcases replaceOne_mem _ _ _ _ h with h | h
  · left; simp at h ⊢; tauto
  rcases replaceOne_mem _ _ _ _ h with h | h
  · left; simp at h ⊢; tauto
  rcases replaceOne_mem _ _ _ _ h with h | h
  · left; simp at h ⊢; tauto
  rcases replaceOne_mem _ _ _ _ h with h | h
  · left; simp at h ⊢; tauto
  · right; exact h

theorem natDigitsCore_mem :
    ∀ fuel n d : Nat, d ∈ natDigitsCore fuel n → 48 ≤ d ∧ d ≤ 57 := by
  intro fuel
  induction fuel with
  | zero => intro n d h; simp [natDigitsCore] at h
  | succ fu ih =>
    intro n d h
    rw [natDigitsCore] at h
    by_cases hn : n < 10
    · rw [if_pos hn] at h; simp at h; omega
    · rw [if_neg hn] at h
      rcases List.mem_append.1 h with h | h
      · exact ih _ _ h
      · simp at h
        have : n % 10 < 10 := Nat.mod_lt _ (by norm_num)
        omega

theorem mem_joinLF :
    ∀ (ls : List Text) (x : Nat), x ∈ joinLF ls →
      x = 10 ∨ ∃ l ∈ ls, x ∈ l := by
  intro ls
  induction ls with
  | nil => intro x h; simp [joinLF] at h
  | cons l ls ih =>
    intro x h
    cases ls with
    | nil => exact Or.inr ⟨l, by simp, by simpa [joinLF] using h⟩
    | cons l2 ls2 =>
      have hj : joinLF (l :: l2 :: ls2) = l ++ 10 :: joinLF (l2 :: ls2) := rfl
      rw [hj] at h
      rcases List.mem_append.1 h with h | h
      · exact Or.inr ⟨l, by simp, h⟩
      · simp only [List.mem_cons] at h
        rcases h with h | h
        · exact Or.inl h
        · rcases ih x h with h | ⟨l3, hl3, hx⟩
          · exact Or.inl h
          · exact Or.inr ⟨l3, by simp [hl3], hx⟩

theorem mem_utf8Encode_zero : ∀ t : Text, 0 ∈ utf8Encode t → 0 ∈ t := by
  intro t
  induction t with
  | nil => simp [utf8Encode]
  | cons c s ih =>
    intro h
    rw [utf8Encode] at h
    rcases List.mem_append.1 h with h | h
    · rw [utf8EncodeChar] at h
      by_cases h1 : c < 0x80
      · rw [if_pos h1] at h; simp at h; simp [← h]
      · rw [if_neg h1] at h
        by_cases h2 : c < 0x800
        · rw [if_pos h2] at h; simp at h; omega
        · rw [if_neg h2] at h
          by_cases h3 : c < 0x10000
          · rw [if_pos h3] at h; simp at h; omega
          · rw [if_neg h3] at h; simp at h; omega
    · exact List.mem_cons_of_mem _ (ih h)

theorem serializeLines_noNul (f : Frame)
    (hcmd : ¬ 0 ∈ f.command)
    (hhs : ∀ q ∈ f.headers, ¬ 0 ∈ q.1 ∧ ¬ 0 ∈ q.2) :
    ∀ l ∈ f.serializeLines, ¬ 0 ∈ l := by
  intro l hl h0
  rw [Frame.serializeLines] at hl
  rcases List.mem_append.1 hl with hl | hl
  · rcases List.mem_append.1 hl with hl | hl
    · have he : l = f.command := by simpa using hl
      exact hcmd (he ▸ h0)
    · obtain ⟨q, hq, he⟩ := List.mem_map.1 hl
      have hqh : q ∈ f.headers := by
        by_cases hs : f.skipContentLengthHeader
        · simp only [hs, if_pos] at hq
          exact (List.mem_filter.1 hq).1
        · simpa [hs] using hq
      subst he
      rcases List.mem_append.1 h0 with h0 | h0
      · exact (hhs q hqh).1 h0
      · simp only [List.mem_cons] at h0
        rcases h0 with h0 | h0
        · norm_num at h0
        · have hv : ¬ 0 ∈ q.2 := (hhs q hqh).2
          revert h0; split
          · intro h0
            rcases mem_hdrValueEscape _ _ h0 with h | h
            · simp at h
            · exact hv h
          · intro h0; exact hv h0
  · revert hl; split
    · intro hl
      have he : l = clKey ++ 58 :: natDigits f.bodyLength := by simpa using hl
      subst he
      rcases List.mem_append.1 h0 with h0 | h0
      · revert h0; decide
      · simp only [List.mem_cons] at h0
        rcases h0 with h0 | h0
        · norm_num at h0
        · have := natDigitsCore_mem _ _ _ h0
          omega
    · intro hl; simp at hl

theorem serializeCmdAndHeaders_noNul (f : Frame)
    (hcmd : ¬ 0 ∈ f.command)
    (hhs : ∀ q ∈ f.headers, ¬ 0 ∈ q.1 ∧ ¬ 0 ∈ q.2) :
    ¬ 0 ∈ f.serializeCmdAndHeaders := by
  intro h
  rw [Frame.serializeCmdAndHeaders] at h
  rcases List.mem_append.1 h with h | h
  · rcases mem_joinLF _ _ h with h | ⟨l, hl, hx⟩
    · norm_num at h
    · exact serializeLines_noNul f hcmd hhs l hl hx
  · simp at h

/-- C8, confirmed: every serialized output is the header block followed
by the body followed by exactly one terminating null and nothing after
it (in particular no trailing line feed), and the header block ends
with two consecutive line feeds.  The "exactly one null" part is stated
as a count of null characters/bytes, under the hypothesis that the
command, headers and body are themselves null-free (a frame whose own
content contains nulls trivially serializes with more). -/
theorem claim_C8 :
    (∀ f : Frame, f.isBinaryBody = false →
      f.serialize = Sum.inl (f.serializeCmdAndHeaders ++ f.bodyF.getD [] ++ [0])) ∧
    (∀ f : Frame, f.isBinaryBody = true →
      f.serialize = Sum.inr
        (utf8Encode f.serializeCmdAndHeaders ++ f.binaryBodyF.getD [] ++ [0])) ∧
    (∀ f : Frame, ∃ A : Text, f.serializeCmdAndHeaders = A ++ [10, 10]) ∧
    (∀ (f : Frame) (s : Text), f.serialize = Sum.inl s →
      ¬ 0 ∈ f.command → (∀ q ∈ f.headers, ¬ 0 ∈ q.1 ∧ ¬ 0 ∈ q.2) →
      ¬ 0 ∈ f.bodyF.getD [] →
      s.count 0 = 1 ∧ s.getLast? = some 0) ∧
    (∀ (f : Frame) (bs : Bytes), f.serialize = Sum.inr bs →
      ¬ 0 ∈ f.command → (∀ q ∈ f.headers, ¬ 0 ∈ q.1 ∧ ¬ 0 ∈ q.2) →
      ¬ 0 ∈ f.binaryBodyF.getD [] →
      bs.count 0 = 1 ∧ bs.getLast? = some 0) := by
  have hinl : ∀ f : Frame, f.isBinaryBody = false →
      f.serialize = Sum.inl (f.serializeCmdAndHeaders ++ f.bodyF.getD [] ++ [0]) := by
    intro f h
    rw [Frame.serialize, if_neg (by simp [h])]
  have hinr : ∀ f : Frame, f.isBinaryBody = true →
      f.serialize = Sum.inr
        (utf8Encode f.serializeCmdAndHeaders ++ f.binaryBodyF.getD [] ++ [0]) := by
    intro f h
    rw [Frame.serialize, if_pos (by simp [h])]
    rfl
  refine ⟨hinl, hinr, fun f => ⟨joinLF f.serializeLines, rfl⟩, ?_, ?_⟩
  · intro f s hs hcmd hhs hbody
    have hbin : f.isBinaryBody = false := by
      by_contra hb
      rw [hinr f (by simpa using hb)] at hs
      simp at hs
    rw [hinl f hbin] at hs
    have hse : s = f.serializeCmdAndHeaders ++ f.bodyF.getD [] ++ [0] :=
      (Sum.inl.inj hs).symm
    subst hse
    constructor
    · rw [List.count_append, List.count_append,
        List.count_eq_zero.2 (serializeCmdAndHeaders_noNul f hcmd hhs),
        List.count_eq_zero.2 hbody]
      rfl
    · rw [List.append_assoc]
      simp
  · intro f bs hs hcmd hhs hbody
    have hbin : f.isBinaryBody = true := by
      by_contra hb
      rw [hinl f (by simpa using hb)] at hs
      simp at hs
    rw [hinr f hbin] at hs
    have hse : bs = utf8Encode f.serializeCmdAndHeaders ++
        f.binaryBodyF.getD [] ++ [0] := (Sum.inr.inj hs).symm
    subst hse
    constructor
    · rw [List.count_append, List.count_append,
        List.count_eq_zero.2
          (fun h => serializeCmdAndHeaders_noNul f hcmd hhs
            (mem_utf8Encode_zero _ h)),
        List.count_eq_zero.2 hbody]
      rfl
    · rw [List.append_assoc]
      simp

/-- C8 witness: a concrete text frame — the serialized string is the
header block, then the body, then one null; it contains exactly one
null and ends with it. -/
theorem wit_C8 :
    (Frame.make ⟨txt "SEND", some [(txt "a", txt "b")], some (txt "hi"),
        none, false, false⟩).serialize
      = Sum.inl ((Frame.make ⟨txt "SEND", some [(txt "a", txt "b")],
          some (txt "hi"), none, false, false⟩).serializeCmdAndHeaders
        ++ txt "hi" ++ [0]) ∧
    ((Frame.make ⟨txt "SEND", some [(txt "a", txt "b")], some (txt "hi"),
        none, false, false⟩).serializeCmdAndHeaders
      ++ txt "hi" ++ [0]).count 0 = 1 ∧
    ((Frame.make ⟨txt "SEND", some [(txt "a", txt "b")], some (txt "hi"),
        none, false, false⟩).serializeCmdAndHeaders
      ++ txt "hi" ++ [0]).getLast? = some 0 := by
  have h1 := claim_C8.1 (Frame.make ⟨txt "SEND", some [(txt "a", txt "b")],
    some (txt "hi"), none, false, false⟩) rfl
  have h2 := claim_C8.2.2.2.1 (Frame.make ⟨txt "SEND",
    some [(txt "a", txt "b")], some (txt "hi"), none, false, false⟩)
    _ h1 (by decide) (by decide) (by decide)
  exact ⟨h1, h2.1, h2.2⟩

/-! ## UTF-8 round trip -/

theorem utf8DecodeSM_encodeChar (c : Nat) (hc : c < 0x110000) (bs : Bytes) :
    utf8DecodeSM 0 0 (utf8EncodeChar c ++ bs) =
      (utf8DecodeSM 0 0 bs).map (fun t => c :: t) := by
  rw [utf8EncodeChar]
  by_cases h1 : c < 0x80
  · rw [if_pos h1]
    show utf8DecodeSM 0 0 (c :: bs) = _
    rw [utf8DecodeSM, if_pos rfl, if_pos h1]
  · rw [if_neg h1]
    by_cases h2 : c < 0x800
    · rw [if_pos h2]
      show utf8DecodeSM 0 0 ((0xC0 + c / 0x40) :: (0x80 + c % 0x40) :: bs) = _
      have e1 : ¬ (0xC0 + c / 0x40 < 0x80) := by omega
      have e2 : ¬ (0xC0 + c / 0x40 < 0xC0) := by omega
      have e3 : 0xC0 + c / 0x40 < 0xE0 := by omega
      have e4 : 0x80 ≤ 0x80 + c % 0x40 ∧ 0x80 + c % 0x40 < 0xC0 :=
        ⟨by omega, by omega⟩
      rw [utf8DecodeSM, if_pos rfl, if_neg e1, if_neg e2, if_pos e3,
        utf8DecodeSM, if_neg (by decide : ¬ (1 = 0)), if_pos e4,
        if_pos rfl]
      congr 1
      funext t
      congr 1
      omega
    · rw [if_neg h2]
      by_cases h3 : c < 0x10000
      · rw [if_pos h3]
        show utf8DecodeSM 0 0 ((0xE0 + c / 0x1000) :: (0x80 + c / 0x40 % 0x40)
          :: (0x80 + c % 0x40) :: bs) = _
        have e1 : ¬ (0xE0 + c / 0x1000 < 0x80) := by omega
        have e2 : ¬ (0xE0 + c / 0x1000 < 0xC0) := by omega
        have e3 : ¬ (0xE0 + c / 0x1000 < 0xE0) := by omega
        have e4 : 0xE0 + c / 0x1000 < 0xF0 := by omega
        have e5 : 0x80 ≤ 0x80 + c / 0x40 % 0x40 ∧
            0x80 + c / 0x40 % 0x40 < 0xC0 := ⟨by omega, by omega⟩
        have e6 : 0x80 ≤ 0x80 + c % 0x40 ∧ 0x80 + c % 0x40 < 0xC0 :=
          ⟨by omega, by omega⟩
        rw [utf8DecodeSM, if_pos rfl, if_neg e1, if_neg e2, if_neg e3,
          if_pos e4,
          utf8DecodeSM, if_neg (by decide : ¬ (2 = 0)), if_pos e5,
          if_neg (by decide : ¬ (2 = 1)),
          utf8DecodeSM, if_neg (by decide : ¬ (2 - 1 = 0)), if_pos e6,
          if_pos (by decide : 2 - 1 = 1)]
        congr 1
        funext t
        congr 1
        omega
      · rw [if_neg h3]
        show utf8DecodeSM 0 0 ((0xF0 + c / 0x40000) ::
          (0x80 + c / 0x1000 % 0x40) :: (0x80 + c / 0x40 % 0x40) ::
          (0x80 + c % 0x40) :: bs) = _
        have e1 : ¬ (0xF0 + c / 0x40000 < 0x80) := by omega
        have e2 : ¬ (0xF0 + c / 0x40000 < 0xC0) := by omega
        have e3 : ¬ (0xF0 + c / 0x40000 < 0xE0) := by omega
        have e4 : ¬ (0xF0 + c / 0x40000 < 0xF0) := by omega
        have e5 : 0xF0 + c / 0x40000 < 0xF8 := by omega
        have e6 : 0x80 ≤ 0x80 + c / 0x1000 % 0x40 ∧
            0x80 + c / 0x1000 % 0x40 < 0xC0 := ⟨by omega, by omega⟩
        have e7 : 0x80 ≤ 0x80 + c / 0x40 % 0x40 ∧
            0x80 + c / 0x40 % 0x40 < 0xC0 := ⟨by omega, by omega⟩
        have e8 : 0x80 ≤ 0x80 + c % 0x40 ∧ 0x80 + c % 0x40 < 0xC0 :=
          ⟨by omega, by omega⟩
        rw [utf8DecodeSM, if_pos rfl, if_neg e1, if_neg e2, if_neg e3,
          if_neg e4, if_pos e5,
          utf8DecodeSM, if_neg (by decide : ¬ (3 = 0)), if_pos e6,
          if_neg (by decide : ¬ (3 = 1)),
          utf8DecodeSM, if_neg (by decide : ¬ (3 - 1 = 0)), if_pos e7,
          if_neg (by decide : ¬ (3 - 1 = 1)),
          utf8DecodeSM, if_neg (by decide : ¬ (3 - 1 - 1 = 0)), if_pos e8,
          if_pos (by decide : 3 - 1 - 1 = 1)]
        congr 1
        funext t
        congr 1
        omega

theorem utf8DecodeSM_encode_append (s : Text) (hs : ∀ c ∈ s, c < 0x110000)
    (bs : Bytes) :
    utf8DecodeSM 0 0 (utf8Encode s ++ bs)
      = (utf8DecodeSM 0 0 bs).map (fun t => s ++ t) := by
  induction s with
  | nil =>
    show utf8DecodeSM 0 0 bs = _
    cases utf8DecodeSM 0 0 bs <;> simp
  | cons c t ih =>
    rw [utf8Encode, List.append_assoc,
      utf8DecodeSM_encodeChar c (hs c (by simp)) _,
      ih (fun x hx => hs x (by simp [hx]))]
    cases utf8DecodeSM 0 0 bs <;> simp

theorem utf8DecodeSM_utf8Encode (s : Text) (hs : ∀ c ∈ s, c < 0x110000) :
    utf8DecodeSM 0 0 (utf8Encode s) = some s := by
  have h := utf8DecodeSM_encode_append s hs []
  simpa [utf8DecodeSM] using h

theorem utf8Encode_take3_ne_bom (b : Text) (hb : ¬ b.head? = some 0xFEFF) :
    ¬ (utf8Encode b).take 3 = [0xEF, 0xBB, 0xBF] := by
  intro heq
  cases b with
  | nil => simp [utf8Encode] at heq
  | cons c t =>
    have hc : ¬ c = 0xFEFF := fun e => hb (by simp [e])
    rw [utf8Encode, utf8EncodeChar] at heq
    by_cases h1 : c < 0x80
    · rw [if_pos h1] at heq
      simp [List.take] at heq
      omega
    · rw [if_neg h1] at heq
      by_cases h2 : c < 0x800
      · rw [if_pos h2] at heq
        simp [List.take] at heq
        omega
      · rw [if_neg h2] at heq
        by_cases h3 : c < 0x10000
        · rw [if_pos h3] at heq
          simp [List.take] at heq
          omega
        · rw [if_neg h3] at heq
          simp [List.take] at heq
          omega

theorem utf8Decode_utf8Encode (s : Text) (hs : ∀ c ∈ s, c < 0x110000)
    (hbom : ¬ s.head? = some 0xFEFF) :
    utf8Decode (utf8Encode s) = some s := by
  rw [utf8Decode, if_neg (utf8Encode_take3_ne_bom s hbom),
    utf8DecodeSM_utf8Encode s hs]

/-! ## Splitter lemmas -/

theorem splitLF_no10 (l : Text) (h : ¬ 10 ∈ l) : splitLF l = [l] := by
  induction l with
  | nil => rfl
  | cons c t ih =>
    have hc : ¬ c = 10 := fun e => h (by simp [e])
    rw [splitLF, if_neg hc, ih (fun m => h (by simp [m]))]

theorem splitLF_append10 (l R : Text) (h : ¬ 10 ∈ l) :
    splitLF (l ++ 10 :: R) = l :: splitLF R := by
  induction l with
  | nil => simp [splitLF]
  | cons c t ih =>
    have hc : ¬ c = 10 := fun e => h (by simp [e])
    rw [List.cons_append, splitLF, if_neg hc, ih (fun m => h (by simp [m]))]

theorem splitLF_joinLF (ls : List Text) (hne : ls ≠ [])
    (h : ∀ l ∈ ls, ¬ 10 ∈ l) : splitLF (joinLF ls) = ls := by
  induction ls with
  | nil => simp at hne
  | cons l ls ih =>
    cases ls with
    | nil => exact splitLF_no10 l (h l (by simp))
    | cons l2 ls2 =>
      have hj : joinLF (l :: l2 :: ls2) = l ++ 10 :: joinLF (l2 :: ls2) := rfl
      rw [hj, splitLF_append10 l _ (h l (by simp)),
        ih (by simp) (fun x hx => h x (by simp [hx]))]

theorem chain'_no10 (l : Text) (h : ¬ 10 ∈ l) :
    List.Chain' (fun a b : Nat => ¬ (a = 10 ∧ b = 10)) l := by
  induction l with
  | nil => simp
  | cons c t ih =>
    rw [List.chain'_cons']
    exact ⟨fun y _ hc => h (by simp [hc.1]), ih (fun m => h (by simp [m]))⟩

theorem chain'_append_no10 (l R : Text) (hl : ¬ 10 ∈ l)
    (hR : List.Chain' (fun a b : Nat => ¬ (a = 10 ∧ b = 10)) R) :
    List.Chain' (fun a b : Nat => ¬ (a = 10 ∧ b = 10)) (l ++ R) := by
  rw [List.chain'_append]
  refine ⟨chain'_no10 l hl, hR, fun x hx y _ hc => hl ?_⟩
  obtain ⟨hne, hxl⟩ := List.mem_getLast?_eq_getLast hx
  rw [hc.1] at hxl
  exact hxl ▸ (hxl.symm ▸ List.getLast_mem hne)

theorem joinLF_cons_head (c : Nat) (t : Text) (ls : List Text) (R : Text) :
    ((joinLF ((c :: t) :: ls)) ++ R).head? = some c := by
  cases ls <;> rfl

theorem chain'_joinLF (ls : List Text) (hne : ∀ l ∈ ls, l ≠ [] ∧ ¬ 10 ∈ l) :
    List.Chain' (fun a b : Nat => ¬ (a = 10 ∧ b = 10)) (joinLF ls ++ [10]) := by
  induction ls with
  | nil => simp [joinLF]
  | cons l ls ih =>
    cases ls with
    | nil => exact chain'_append_no10 l [10] (hne l (by simp)).2 (by simp)
    | cons l2 ls2 =>
      have hj : joinLF (l :: l2 :: ls2) = l ++ 10 :: joinLF (l2 :: ls2) := rfl
      rw [hj, List.append_assoc, List.cons_append]
      apply chain'_append_no10 l _ (hne l (by simp)).2
      rw [List.chain'_cons']
      refine ⟨?_, ih (fun x hx => hne x (by simp [hx]))⟩
      intro y hy hcon
      obtain ⟨c, t, hl2⟩ : ∃ c t, l2 = c :: t := by
        rcases l2 with _ | ⟨c, t⟩
        · exact absurd rfl (hne [] (by simp)).1
        · exact ⟨c, t, rfl⟩
      rw [hl2, joinLF_cons_head] at hy
      have hyc : c = y := by simpa using hy
      exact (hne l2 (by simp)).2 (by simp [hl2, hyc, hcon.2])

theorem splitAtLFLF_append (A B : Text)
    (h : List.Chain' (fun a b : Nat => ¬ (a = 10 ∧ b = 10)) (A ++ [10])) :
    splitAtLFLF (A ++ 10 :: 10 :: B) = some (A, B) := by
  induction A with
  | nil => simp [splitAtLFLF]
  | cons a A' ih =>
    have hh := List.chain'_cons'.1 (by rwa [List.cons_append] at h)
    cases A' with
    | nil =>
      have ha : ¬ a = 10 := fun e => (hh.1 10 (by simp)) ⟨e, rfl⟩
      show splitAtLFLF (a :: 10 :: 10 :: B) = some ([a], B)
      rw [splitAtLFLF, if_neg (fun hc => ha hc.1)]
      rw [show splitAtLFLF (10 :: 10 :: B) = some ([], B) from
        by rw [splitAtLFLF, if_pos ⟨rfl, rfl⟩]]
      rfl
    | cons a2 A'' =>
      have hcond : ¬ (a = 10 ∧ a2 = 10) := fun hc => (hh.1 a2 (by simp)) hc
      show splitAtLFLF (a :: a2 :: (A'' ++ 10 :: 10 :: B)) =
        some (a :: a2 :: A'', B)
      rw [splitAtLFLF, if_neg hcond,
        show a2 :: (A'' ++ 10 :: 10 :: B) = (a2 :: A'') ++ 10 :: 10 :: B
          from rfl,
        ih hh.2]
      rfl

theorem dropWhile_ne_colon (k : Text) (v : Text) (hk : ¬ 58 ∈ k) :
    (k ++ 58 :: v).dropWhile (fun c => !(c == 58)) = 58 :: v := by
  induction k with
  | nil => simp [List.dropWhile]
  | cons c t ih =>
    have hc : ¬ c = 58 := fun e => hk (by simp [e])
    rw [List.cons_append, List.dropWhile_cons,
      if_pos (by simpa using hc)]
    exact ih (fun m => hk (by simp [m]))

theorem takeWhile_ne_colon (k : Text) (v : Text) (hk : ¬ 58 ∈ k) :
    (k ++ 58 :: v).takeWhile (fun c => !(c == 58)) = k := by
  induction k with
  | nil => simp [List.takeWhile]
  | cons c t ih =>
    have hc : ¬ c = 58 := fun e => hk (by simp [e])
    rw [List.cons_append, List.takeWhile_cons]
    rw [if_pos (by simpa using hc)]
    rw [ih (fun m => hk (by simp [m]))]

theorem parseHeaderLine_key (k v : Text) (hk : ¬ 58 ∈ k) :
    parseHeaderLine (k ++ 58 :: v) = some (k, v) := by
  rw [parseHeaderLine]
  simp only [dropWhile_ne_colon k v hk, takeWhile_ne_colon k v hk]

theorem mapOption_append (f : α → Option β) (xs ys : List α)
    (xs' ys' : List β) (hx : mapOption f xs = some xs')
    (hy : mapOption f ys = some ys') :
    mapOption f (xs ++ ys) = some (xs' ++ ys') := by
  induction xs generalizing xs' with
  | nil =>
    rw [mapOption] at hx
    cases hx
    simpa using hy
  | cons a t ih =>
    rw [mapOption] at hx
    rcases hfa : f a with _ | b
    · rw [hfa] at hx; simp at hx
    · rw [hfa] at hx
      rcases hmt : mapOption f t with _ | ts
      · rw [hmt] at hx; simp at hx
      · rw [hmt] at hx
        simp only [Option.some.injEq] at hx
        rw [List.cons_append, mapOption, hfa, ih ts hmt]
        rw [← hx]
        rfl

theorem mapOption_parse_hdrLines (hdrs : Headers) (ev : Text × Text → Text)
    (hk : ∀ q ∈ hdrs, ¬ 58 ∈ q.1) :
    mapOption parseHeaderLine (hdrs.map (fun q => q.1 ++ 58 :: ev q))
      = some (hdrs.map (fun q => (q.1, ev q))) := by
  induction hdrs with
  | nil => rfl
  | cons q t ih =>
    rw [List.map_cons, mapOption, parseHeaderLine_key q.1 (ev q)
      (hk q (by simp)), ih (fun x hx => hk x (by simp [hx])), List.map_cons]

/-! ## Character-class and lookup lemmas for the round trip -/

theorem replaceOne_not_mem_self (a : Nat) (r : List Nat) (s : List Nat)
    (h : ¬ a ∈ r) : ¬ a ∈ replaceOne a r s := by
  induction s with
  | nil => simp [replaceOne]
  | cons c t ih =>
    rw [replaceOne]
    intro hmem
    rcases List.mem_append.1 hmem with hm | hm
    · by_cases hc : c = a
      · rw [if_pos hc] at hm; exact h hm
      · rw [if_neg hc] at hm
        simp at hm
        exact hc hm.symm
    · exact ih hm

theorem hdrValueEscape_no10 (v : Text) : ¬ 10 ∈ hdrValueEscape v := by
  rw [hdrValueEscape]
  intro h
  rcases replaceOne_mem _ _ _ _ h with h | h
  · simp at h
  · exact replaceOne_not_mem_self 10 [92, 110] _ (by decide) h

theorem hdrValueEscape_no58 (v : Text) : ¬ 58 ∈ hdrValueEscape v :=
  replaceOne_not_mem_self 58 [92, 99] _ (by decide)

theorem lookupHdr_eq_find? (l : Headers) (k : Text) :
    lookupHdr l k = (l.find? (fun q => decide (q.1 = k))).map (fun q => q.2) := by
  induction l with
  | nil => rfl
  | cons q t ih =>
    by_cases hk : q.1 = k
    · rw [lookupHdr, if_pos hk, List.find?_cons_of_pos _ (by simpa using hk)]
      rfl
    · rw [lookupHdr, if_neg hk, List.find?_cons_of_neg _ (by simpa using hk),
        ih]

theorem find?_append_eq (p : α → Bool) (l1 l2 : List α) :
    (l1 ++ l2).find? p = ((l1.find? p).orElse (fun _ => l2.find? p)) := by
  induction l1 with
  | nil => simp
  | cons a t ih =>
    by_cases ha : p a
    · rw [List.cons_append, List.find?_cons_of_pos _ ha,
        List.find?_cons_of_pos _ ha]
      rfl
    · rw [List.cons_append, List.find?_cons_of_neg _ (by simpa using ha),
        List.find?_cons_of_neg _ (by simpa using ha), ih]

theorem find?_map_trimmed (hdrs : Headers) (ev : Text × Text → Text)
    (k : Text) (htrim : ∀ q ∈ hdrs, trim q.1 = q.1) :
    (hdrs.map (fun q => (q.1, ev q))).find?
        (fun p => decide (trim p.1 = k))
      = (hdrs.find? (fun q => decide (q.1 = k))).map
          (fun q => (q.1, ev q)) := by
  induction hdrs with
  | nil => rfl
  | cons q t ih =>
    rw [List.map_cons]
    by_cases hk : q.1 = k
    · rw [List.find?_cons_of_pos _ (by rw [htrim q (by simp), hk]; simp),
        List.find?_cons_of_pos _ (by simpa using hk)]
      rfl
    · rw [List.find?_cons_of_neg _ (by simp [htrim q (by simp), hk]),
        List.find?_cons_of_neg _ (by simpa using hk),
        ih (fun x hx => htrim x (by simp [hx]))]

theorem lookupHdr_filter_ne (hdrs : Headers) (k : Text) (hk : ¬ k = clKey) :
    lookupHdr (hdrs.filter (fun q => decide (¬ q.1 = clKey))) k
      = lookupHdr hdrs k := by
  induction hdrs with
  | nil => rfl
  | cons q t ih =>
    by_cases hq : q.1 = clKey
    · rw [List.filter_cons_of_neg (by simpa using hq), ih, lookupHdr,
        if_neg (fun he => hk (he.symm.trans hq))]
    · rw [List.filter_cons_of_pos (by simpa using hq)]
      by_cases hqk : q.1 = k
      · rw [lookupHdr, if_pos hqk, lookupHdr, if_pos hqk]
      · rw [lookupHdr, if_neg hqk, lookupHdr, if_neg hqk, ih]

theorem dropWhile_eq_self_of (p : Nat → Bool) (s : Text)
    (h : ∀ c ∈ s, p c = false) : s.dropWhile p = s := by
  cases s with
  | nil => rfl
  | cons c t => rw [List.dropWhile_cons, if_neg (by simp [h c (by simp)])]

theorem trim_eq_self (s : Text) (h : ∀ c ∈ s, isWsChar c = false) :
    trim s = s := by
  rw [trim, dropWhile_eq_self_of _ _ h,
    dropWhile_eq_self_of _ _ (fun c hc => h c (List.mem_reverse.1 hc)),
    List.reverse_reverse]

theorem trim_natDigits (n : Nat) : trim (natDigits n) = natDigits n := by
  apply trim_eq_self
  intro c hc
  have hr := natDigitsCore_mem _ _ _ hc
  rw [isWsChar]
  simp only [Bool.or_eq_false_iff, beq_eq_false_iff_ne, ne_eq,
    Bool.and_eq_false_iff, decide_eq_false_iff_not, not_le]
  omega

theorem serializeLines_text_escaped (cmd : Text) (hdrs : Headers) (b : Text)
    (skp : Bool) (hc1 : ¬ cmd = txt "CONNECT")
    (hc2 : ¬ cmd = txt "CONNECTED") :
    (Frame.make ⟨cmd, some hdrs, some b, none, true, skp⟩).serializeLines
      = [cmd]
        ++ (if skp then hdrs.filter (fun q => decide (¬ q.1 = clKey))
            else hdrs).map (fun q => q.1 ++ 58 :: hdrValueEscape q.2)
        ++ (if ¬ (utf8Encode b).length = 0 ∧ skp = false
            then [clKey ++ 58 :: natDigits (utf8Encode b).length] else []) := by
  rw [Frame.serializeLines]
  simp only [Frame.make, Frame.isBodyEmpty, Frame.bodyLength, Frame.binaryBody]
  simp [hc1, hc2, Frame.make]

/-- C4, corrected.  The claim as frozen quantifies over every
text-bodied frame (restricting only the escaping flag and the command),
but the program's round trip fails on frames it covers: a header value
containing a backslash decodes to a different string (the
`hdrValueUnEscape` ordering bug of C1, see `cx_C4`), whitespace-padded
keys or values are lossily trimmed on decode, and a body starting with
U+FEFF loses that character to `TextDecoder`'s BOM stripping.  The
amended statement: for every text frame with escaping enabled, command
neither CONNECT nor CONNECTED, line-feed-free and non-empty command,
trimmed colon-free line-feed-free keys, backslash-free values whose
escaped form is trim-invariant, and a body of Unicode scalar values not
beginning with U+FEFF, decoding the split of the serialization yields
the same command, the same header mapping at every key other than
`content-length`, the caller's own `content-length` value as well when
one was set and `skipContentLengthHeader` is unset, and the same body
text. -/
theorem claim_C4 (cmd : Text) (hdrs : Headers) (b : Text) (skp : Bool)
    (hcmd10 : ¬ 10 ∈ cmd) (hcmdne : ¬ cmd = [])
    (hc1 : ¬ cmd = txt "CONNECT") (hc2 : ¬ cmd = txt "CONNECTED")
    (hhdr : ∀ q ∈ hdrs, trim q.1 = q.1 ∧ ¬ 10 ∈ q.1 ∧ ¬ 58 ∈ q.1 ∧
      trim (hdrValueEscape q.2) = hdrValueEscape q.2 ∧ ∀ c ∈ q.2, ¬ c = 92)
    (hb : ValidText b) (hbom : ¬ b.head? = some 0xFEFF) :
    ∃ (s : Text) (raw : RawFrame),
      (Frame.make ⟨cmd, some hdrs, some b, none, true, skp⟩).serialize
        = Sum.inl s ∧
      split s = some raw ∧
      (Frame.fromRawFrame raw true).1.command = cmd ∧
      (∀ k : Text, ¬ k = clKey →
        lookupHdr (Frame.fromRawFrame raw true).1.headers k
          = lookupHdr hdrs k) ∧
      (skp = false → ∀ v : Text, lookupHdr hdrs clKey = some v →
        lookupHdr (Frame.fromRawFrame raw true).1.headers clKey = some v) ∧
      (Frame.fromRawFrame raw true).1.body = some b := by
  have hlen : ∀ q ∈ (if skp then hdrs.filter (fun q => decide (¬ q.1 = clKey))
      else hdrs), q ∈ hdrs := by
    intro q hq
    by_cases hskp : skp
    · rw [if_pos hskp] at hq; exact (List.mem_filter.1 hq).1
    · rwa [if_neg hskp] at hq
  have hLprops : ∀ l ∈ ([cmd]
      ++ (if skp then hdrs.filter (fun q => decide (¬ q.1 = clKey))
          else hdrs).map (fun q => q.1 ++ 58 :: hdrValueEscape q.2)
      ++ (if ¬ (utf8Encode b).length = 0 ∧ skp = false
          then [clKey ++ 58 :: natDigits (utf8Encode b).length] else [])),
      l ≠ [] ∧ ¬ 10 ∈ l := by
    intro l hl
    rcases List.mem_append.1 hl with hl | hl
    · rcases List.mem_append.1 hl with hl | hl
      · have he : l = cmd := by simpa using hl
        exact he ▸ ⟨hcmdne, hcmd10⟩
      · obtain ⟨q, hq, he⟩ := List.mem_map.1 hl
        have hqh := hhdr q (hlen q hq)
        subst he
        refine ⟨by simp, ?_⟩
        intro hmem
        rcases List.mem_append.1 hmem with hmem | hmem
        · exact hqh.2.1 hmem
        · simp only [List.mem_cons] at hmem
          rcases hmem with hmem | hmem
          · norm_num at hmem
          · exact hdrValueEscape_no10 q.2 hmem
    · revert hl; split
      · intro hl
        have he : l = clKey ++ 58 :: natDigits (utf8Encode b).length := by
          simpa using hl
        subst he
        refine ⟨by simp, ?_⟩
        intro hmem
        rcases List.mem_append.1 hmem with hmem | hmem
        · revert hmem; decide
        · simp only [List.mem_cons] at hmem
          rcases hmem with hmem | hmem
          · norm_num at hmem
          · have := natDigitsCore_mem _ _ _ hmem; omega
      · intro hl; simp at hl
  have hLchain := chain'_joinLF _ hLprops
  have hLsplit := splitLF_joinLF _ (by simp) (fun l hl => (hLprops l hl).2)
  have hp1 := mapOption_parse_hdrLines
    (if skp then hdrs.filter (fun q => decide (¬ q.1 = clKey)) else hdrs)
    (fun q => hdrValueEscape q.2) (fun q hq => (hhdr q (hlen q hq)).2.2.1)
  have hp2 : mapOption parseHeaderLine
      (if ¬ (utf8Encode b).length = 0 ∧ skp = false
        then [clKey ++ 58 :: natDigits (utf8Encode b).length] else [])
      = some (if ¬ (utf8Encode b).length = 0 ∧ skp = false
        then [(clKey, natDigits (utf8Encode b).length)] else []) := by
    split
    · simp [mapOption, parseHeaderLine_key clKey _ (by decide)]
    · rfl
  have hPM := mapOption_append parseHeaderLine _ _ _ _ hp1 hp2
  have hdec : (Frame.fromRawFrame
      ⟨cmd, (if skp then hdrs.filter (fun q => decide (¬ q.1 = clKey))
          else hdrs).map (fun q => (q.1, hdrValueEscape q.2))
        ++ (if ¬ (utf8Encode b).length = 0 ∧ skp = false
            then [(clKey, natDigits (utf8Encode b).length)] else []),
        utf8Encode b⟩ true).1.headers
      = (((if skp then hdrs.filter (fun q => decide (¬ q.1 = clKey))
          else hdrs).map (fun q => (q.1, hdrValueEscape q.2))
        ++ (if ¬ (utf8Encode b).length = 0 ∧ skp = false
            then [(clKey, natDigits (utf8Encode b).length)] else [])
        ).reverse.foldl
          (fun m p => insertHdr m (trim p.1) (hdrValueUnEscape (trim p.2)))
          []) := by
    simp [Frame.fromRawFrame, Frame.make_headers, hc1, hc2]
  have horelse : ∀ x : Option (Text × Text),
      (x.orElse fun _ => none) = x := by
    intro x; cases x <;> rfl
  have horelse2 : ∀ (x : Text × Text) (f : Unit → Option (Text × Text)),
      ((some x).orElse f) = some x := fun _ _ => rfl
  refine ⟨(Frame.make ⟨cmd, some hdrs, some b, none, true,
      skp⟩).serializeCmdAndHeaders ++ b ++ [0],
    ⟨cmd,
      (if skp then hdrs.filter (fun q => decide (¬ q.1 = clKey))
          else hdrs).map (fun q => (q.1, hdrValueEscape q.2))
        ++ (if ¬ (utf8Encode b).length = 0 ∧ skp = false
            then [(clKey, natDigits (utf8Encode b).length)] else []),
      utf8Encode b⟩, rfl, ?_, rfl, ?_, ?_, ?_⟩
  · -- the split computation
    rw [Frame.serializeCmdAndHeaders,
      serializeLines_text_escaped cmd hdrs b skp hc1 hc2, split]
    simp only [List.append_assoc, List.cons_append, List.nil_append]
      at hLchain hLsplit ⊢
    rw [splitAtLFLF_append _ _ hLchain]
    simp only [hLsplit, List.singleton_append, hPM, List.getLast?_concat,
      List.dropLast_concat]
  · -- header mapping away from content-length
    intro k hk
    rw [hdec, lookupHdr_fold _ (fun p => trim p.1)
      (fun p => hdrValueUnEscape (trim p.2)) k, find?_append_eq]
    have hclnone : (if ¬ (utf8Encode b).length = 0 ∧ skp = false
        then [(clKey, natDigits (utf8Encode b).length)] else []).find?
          (fun p => decide (trim p.1 = k)) = none := by
      have htc : trim clKey = clKey := by decide
      have hck : ¬ (trim (clKey, natDigits (utf8Encode b).length).1 = k) := by
        intro he
        exact hk (he.symm.trans htc)
      split
      · rw [List.find?_cons_of_neg _ (by simpa using hck)]; rfl
      · rfl
    rw [hclnone, horelse, find?_map_trimmed _ _ k
      (fun q hq => (hhdr q (hlen q hq)).1)]
    have hEq : lookupHdr (if skp then
        hdrs.filter (fun q => decide (¬ q.1 = clKey)) else hdrs) k
        = lookupHdr hdrs k := by
      by_cases hskp : skp
      · rw [if_pos hskp, lookupHdr_filter_ne hdrs k hk]
      · rw [if_neg hskp]
    rcases hfind : (if skp then
        hdrs.filter (fun q => decide (¬ q.1 = clKey)) else hdrs).find?
          (fun q => decide (q.1 = k)) with _ | q
    · have hnone : lookupHdr hdrs k = none := by
        rw [← hEq, lookupHdr_eq_find?, hfind]; rfl
      rw [hfind, hnone]
      rfl
    · have hqmem : q ∈ hdrs := hlen q (List.mem_of_find?_eq_some hfind)
      have hprops := hhdr q hqmem
      have hval : hdrValueUnEscape (trim (hdrValueEscape q.2)) = q.2 := by
        rw [hprops.2.2.2.1, unescape_escape q.2 hprops.2.2.2.2]
      have hsome : lookupHdr hdrs k = some q.2 := by
        rw [← hEq, lookupHdr_eq_find?, hfind]; rfl
      rw [hfind, hsome]
      simp [hval]
  · -- a caller-set content-length survives when skip is unset
    intro hskp v hv
    have hEHS : (if skp then hdrs.filter (fun q => decide (¬ q.1 = clKey))
        else hdrs) = hdrs := by
      simp [hskp]
    rw [hdec, lookupHdr_fold _ (fun p => trim p.1)
      (fun p => hdrValueUnEscape (trim p.2)) clKey, find?_append_eq,
      find?_map_trimmed _ _ clKey (fun q hq => (hhdr q (hlen q hq)).1), hEHS]
    rcases hfind : hdrs.find? (fun q => decide (q.1 = clKey)) with _ | q
    · rw [lookupHdr_eq_find?, hfind] at hv
      simp at hv
    · have hq2 : q.2 = v := by
        rw [lookupHdr_eq_find?, hfind] at hv
        simpa using hv
      have hqmem : q ∈ hdrs := List.mem_of_find?_eq_some hfind
      have hprops := hhdr q hqmem
      have hval : hdrValueUnEscape (trim (hdrValueEscape q.2)) = q.2 := by
        rw [hprops.2.2.2.1, unescape_escape q.2 hprops.2.2.2.2]
      rw [hfind]
      simp only [Option.map_some', horelse2]
      rw [hval, hq2]
  · -- body text
    exact utf8Decode_utf8Encode b (fun c hc => (hb c hc).1) hbom

/-- C4 counterexample: on a frame the claim covers — text body,
escaping enabled, command `SEND` — with the header value `\r`
(backslash then the letter `r`), the decode of the split of the
serialization binds the key to backslash + carriage return, not to the
original value, so the decoded frame is not equal to the original in
its headers. -/
theorem cx_C4 :
    (Frame.make ⟨txt "SEND", some [(txt "x", txt "\\r")], some [], none,
        true, false⟩).serialize
      = Sum.inl ((Frame.make ⟨txt "SEND", some [(txt "x", txt "\\r")],
          some [], none, true, false⟩).serializeCmdAndHeaders ++ [] ++ [0]) ∧
    ((split ((Frame.make ⟨txt "SEND", some [(txt "x", txt "\\r")], some [],
        none, true, false⟩).serializeCmdAndHeaders ++ [] ++ [0])).map
      (fun raw => lookupHdr (Frame.fromRawFrame raw true).1.headers (txt "x")))
      = some (some [92, 13]) ∧
    lookupHdr (Frame.make ⟨txt "SEND", some [(txt "x", txt "\\r")], some [],
        none, true, false⟩).headers (txt "x") = some [92, 114] ∧
    ¬ ([92, 13] : Text) = [92, 114] :=
  ⟨rfl, by decide, by decide, by decide⟩

/-- C4 witness: a concrete SEND frame with a colon-carrying header
value, a caller-set `content-length:7`, and the multi-byte body
`"héllo"` survives the serialize–split–decode round trip, the caller's
`content-length` value included. -/
theorem wit_C4 :
    ((split ((Frame.make ⟨txt "SEND",
        some [(txt "content-length", txt "7"), (txt "x", txt "a:b")],
        some (txt "héllo"), none, true, false⟩).serializeCmdAndHeaders
        ++ txt "héllo" ++ [0])).map (fun raw =>
      ((Frame.fromRawFrame raw true).1.command,
       (Frame.fromRawFrame raw true).1.body,
       lookupHdr (Frame.fromRawFrame raw true).1.headers (txt "x"),
       lookupHdr (Frame.fromRawFrame raw true).1.headers clKey)))
      = some (txt "SEND", some (txt "héllo"), some (txt "a:b"),
          some (txt "7")) := by
  obtain ⟨s, raw, h1, h2, h3, h4, hcl, h5⟩ :=
    claim_C4 (txt "SEND")
      [(txt "content-length", txt "7"), (txt "x", txt "a:b")]
      (txt "héllo") false
      (by decide) (by decide) (by decide) (by decide) (by decide) (by decide)
      (by decide)
  rw [show (Frame.make ⟨txt "SEND",
      some [(txt "content-length", txt "7"), (txt "x", txt "a:b")],
      some (txt "héllo"), none, true, false⟩).serializeCmdAndHeaders
      ++ txt "héllo" ++ [0] = s from Sum.inl.inj h1, h2]
  have h4x := h4 (txt "x") (by decide)
  have hclx := hcl rfl (txt "7") (by decide)
  simp [h3, h5, h4x, hclx]
  decide

/-- C10, confirmed: `fromRawFrame` acts on the state of its raw-frame
argument — `rawFrame.headers.reverse()` reverses the caller's array in
place — so after the call the argument holds the same header lines in
reversed order (command and binary body unchanged). -/
theorem claim_C10 (raw : RawFrame) (esc : Bool) :
    ((Frame.fromRawFrame raw esc).2).headers = raw.headers.reverse ∧
    ((Frame.fromRawFrame raw esc).2).command = raw.command ∧
    ((Frame.fromRawFrame raw esc).2).binaryBody = raw.binaryBody :=
  ⟨rfl, rfl, rfl⟩

end Stomp
